import Mathlib

/-!
Verification of the retrieval pipeline of the Confluence search
connector, a shallow embedding of src/api/confluence.py together with
the caller-facing route of src/api/routes.py.

Modelling conventions.
The mutable OrderedDict cache of ConfluenceClient is an explicit
association list ordered from the oldest position at the head to the
most recently inserted or used position at the end, exactly the order
OrderedDict maintains; move_to_end, popitem and dict assignment are
embedded as list operations on that representation.  External
collaborators are fields of an Env record: the document endpoint
reached through the aiohttp session is a function from page id to an
UpstreamDoc outcome, the search endpoint reached through requests.get
is a function from the submitted query text and limit to a
SearchResponse, sys.getsizeof is an abstract size function on records,
and the BeautifulSoup text extraction is an abstract strip function.
Python exceptions are explicit: every operation returns its Except
result together with the client state it leaves behind, so that cache
mutations made before an exception persist, as they do on the shared
Python object.  The state carries a ghost counter of upstream document
requests issued, used only to state the no-refetch properties; it is
incremented exactly where the Python code enters session.get.  The
concurrent batch of asyncio.gather is serialized in input order: the
per-fetch suspension points are only at network calls, gather delivers
results index-aligned with its input, and a raised exception
propagates out of the batch, which this sequential embedding renders
as first-error propagation.
-/

/-- DocumentRecord: the serialized page dict built by get_page from an
ok response, holding title, text with the raw storage markup, and url. -/
structure SerializedPage where
  title : String
  text : String
  url : String
deriving DecidableEq

/-- One search hit as returned by the search endpoint: its id, and
whether the dict carries the PAGE_TYPE key, which is what makes it
eligible for retrieval in gather. -/
structure PageRef where
  id : String
  hasType : Bool
deriving DecidableEq

/-- Response of the upstream search collaborator, as seen by
search_pages: HTTP status code, body text, and the parsed results. -/
structure SearchResponse where
  statusCode : Nat
  text : String
  results : List PageRef
deriving DecidableEq

/-- Outcome of one upstream document request issued through the aiohttp
session: a network-level failure raised as an exception, a response
with a non-ok status, or an ok response whose JSON carries the title,
the storage body value and the webui link. -/
inductive UpstreamDoc where
  | netFail : UpstreamDoc
  | httpFail (bodyText : String) : UpstreamDoc
  | okDoc (title bodyValue webui : String) : UpstreamDoc
deriving DecidableEq

/-- The cache of ConfluenceClient: an OrderedDict from page id to
serialized page, head at the oldest position, end at the most recently
inserted or used position. -/
abbrev Cache := List (String × SerializedPage)

deriving instance DecidableEq for Except

/-- Python exceptions that escape a document fetch: a network-level
failure from aiohttp, or the KeyError raised by cache_get when the key
is absent. -/
inductive FetchError where
  | network : FetchError
  | keyError : FetchError
deriving DecidableEq

/-- Python exceptions that escape ConfluenceClient.search: the
UpstreamProviderError raised by search_pages, or a fetch exception
propagated out of the batch. -/
inductive SearchError where
  | upstream (message : String) : SearchError
  | network : SearchError
  | keyError : SearchError
deriving DecidableEq

/-- Client configuration together with the behaviour of the external
collaborators, fixed for a run: constructor arguments of
ConfluenceClient, the search endpoint, the document endpoint, the
sys.getsizeof estimate, and the BeautifulSoup stripped-strings join. -/
structure Env where
  baseUrl : String
  user : String
  apiToken : String
  searchLimit : Nat
  searchFn : String → Nat → SearchResponse
  docs : String → UpstreamDoc
  size : SerializedPage → Nat
  strip : String → String

/-- Mutable state of one ConfluenceClient instance: its cache, plus a
ghost counter of upstream document requests issued. -/
structure ClientState where
  cache : Cache
  calls : Nat
deriving DecidableEq

/-- ConfluenceClient.init: the cache starts as an empty OrderedDict. -/
def clientInit : ClientState := { cache := [], calls := 0 }

/-- ConfluenceClient.cache_size: functools.reduce of addition over
sys.getsizeof of the values, starting from zero. -/
def cacheSize (env : Env) (c : Cache) : Nat :=
  (c.map (fun e => env.size e.2)).foldl (fun a b => a + b) 0

/-- ConfluenceClient.cache_get: move_to_end on the key, then return the
stored value.  A missing key makes move_to_end raise KeyError, rendered
as none. -/
def cache_get (c : Cache) (k : String) : Option (SerializedPage × Cache) :=
  match c.find? (fun e => e.1 == k) with
  | none => none
  | some e => some (e.2, c.eraseP (fun e => e.1 == k) ++ [e])

/-- Assignment into the OrderedDict: an existing key keeps its position
and its value is overwritten, a new key is appended at the most recent
end. -/
def odSet (c : Cache) (k : String) (v : SerializedPage) : Cache :=
  if c.any (fun e => e.1 == k) then
    c.map (fun e => if e.1 == k then (k, v) else e)
  else c ++ [(k, v)]

/-- The body of the while loop of ConfluenceClient.cache_put with an
explicit iteration bound: while the total size exceeds the limit,
popitem removes the entry at the most recent end.  Each iteration of
the Python loop removes one entry, so the length of the cache bounds
the number of iterations; the fuel keeps the recursion structural and
the function computable by the kernel. -/
def evictFuel (env : Env) (limit : Nat) : Nat → Cache → Cache
  | 0, _ => []
  | n + 1, c => if limit < cacheSize env c then evictFuel env limit n c.dropLast else c

/-- The while loop of ConfluenceClient.cache_put, run with its
sufficient fuel. -/
def evictLoop (env : Env) (limit : Nat) (c : Cache) : Cache :=
  evictFuel env limit c.length c

/-- ConfluenceClient.cache_put: assign the entry, then evict from the
most recent end until the total size is within the limit. -/
def cache_put (env : Env) (limit : Nat) (c : Cache) (k : String)
    (v : SerializedPage) : Cache :=
  evictLoop env limit (odSet c k v)

/-- Lookup without recency update, describing plain dict access. -/
def odLookup (c : Cache) (k : String) : Option SerializedPage :=
  (c.find? (fun e => e.1 == k)).map (fun e => e.2)

/-- Word characters of the regex word class used by search_pages, in
its ASCII fragment: letters, digits and the underscore. -/
def isWordChar (c : Char) : Bool := c.isAlphanum || c == '_'

/-- re.sub of a maximal nonempty run of characters failing p with a
single space, with an explicit recursion bound: characters satisfying
p are kept unchanged, every maximal run of characters failing p
becomes one space.  Every step consumes at least one character, so the
length of the input bounds the number of steps; the fuel keeps the
recursion structural and the function computable by the kernel. -/
def collapseFuel (p : Char → Bool) : Nat → List Char → List Char
  | 0, _ => []
  | n + 1, l =>
    match l with
    | [] => []
    | c :: cs =>
      if p c then c :: collapseFuel p n cs
      else ' ' :: collapseFuel p n (cs.dropWhile (fun d => !p d))

/-- The run-collapsing substitution, run with its sufficient fuel. -/
def collapseRuns (p : Char → Bool) (l : List Char) : List Char :=
  collapseFuel p l.length l

/-- The query formatting of search_pages: the regex substitution that
collapses every maximal run of non-word characters, whitespace
included, into a single space. -/
def formatQuery (q : String) : String :=
  String.mk (collapseRuns isWordChar q.data)

/-- ConfluenceClient.search_pages: format the query, submit it to the
search collaborator together with the configured limit, raise
UpstreamProviderError carrying the response body text when the status
is not 200, and otherwise return the parsed results. -/
def search_pages (env : Env) (query : String) : Except String (List PageRef) :=
  let response := env.searchFn (formatQuery query) env.searchLimit
  if response.statusCode ≠ 200 then
    Except.error (String.append "Error during Confluence search: " response.text)
  else
    Except.ok response.results

/-- ConfluenceClient.get_page.  A cache hit returns the cached record
through cache_get without touching the network.  On a miss the
document endpoint is consulted, incrementing the ghost call counter: a
network-level failure raises, a non-ok response is logged and settles
as none, and an ok response is parsed into a record, inserted with
cache_put, and read back through cache_get, whose KeyError raises when
the insertion itself evicted the new entry. -/
def get_page (env : Env) (limit : Nat) (st : ClientState) (pid : String) :
    Except FetchError (Option SerializedPage) × ClientState :=
  if st.cache.any (fun e => e.1 == pid) then
    match cache_get st.cache pid with
    | some (v, c) => (Except.ok (some v), { st with cache := c })
    | none => (Except.error FetchError.keyError, st)
  else
    match env.docs pid with
    | UpstreamDoc.netFail =>
      (Except.error FetchError.network, { st with calls := st.calls + 1 })
    | UpstreamDoc.httpFail _ =>
      (Except.ok none, { st with calls := st.calls + 1 })
    | UpstreamDoc.okDoc title bodyValue webui =>
      let page : SerializedPage :=
        { title := title, text := bodyValue,
          url := env.baseUrl ++ "/wiki" ++ webui }
      let c := cache_put env limit st.cache pid page
      match cache_get c pid with
      | some (v, c2) => (Except.ok (some v), { cache := c2, calls := st.calls + 1 })
      | none => (Except.error FetchError.keyError, { cache := c, calls := st.calls + 1 })

/-- ConfluenceClient.gather: one task per input reference that carries
the PAGE_TYPE key, results delivered index-aligned with the input.  A
raised fetch exception propagates out of the batch; the sequential
embedding runs the fetches in input order, so the first raising fetch
ends the batch with its exception, and the cache mutations made so far
persist. -/
def gather (env : Env) (limit : Nat) (st : ClientState) :
    List PageRef → Except FetchError (List (Option SerializedPage)) × ClientState
  | [] => (Except.ok [], st)
  | r :: rs =>
    if r.hasType then
      match get_page env limit st r.id with
      | (Except.error e, st1) => (Except.error e, st1)
      | (Except.ok slot, st1) =>
        match gather env limit st1 rs with
        | (Except.error e, st2) => (Except.error e, st2)
        | (Except.ok slots, st2) => (Except.ok (slot :: slots), st2)
    else gather env limit st rs

/-- ConfluenceClient.fetch_pages: open a fresh session and event loop,
run gather to completion, close them.  The session and loop are
external resources with no observable effect on the result, so the
embedding is gather itself. -/
def fetch_pages (env : Env) (limit : Nat) (st : ClientState)
    (pages : List PageRef) :
    Except FetchError (List (Option SerializedPage)) × ClientState :=
  gather env limit st pages

/-- The in-place mutation performed by the normalization loop of
search: the dict objects in the result list are the cache-resident
records, so assigning the stripped text into such a dict rewrites the
text field of the cache entry with that key. -/
def stripText (env : Env) (c : Cache) (pid : String) : Cache :=
  c.map (fun e => if e.1 == pid then (e.1, { e.2 with text := env.strip e.2.text }) else e)

/-- ConfluenceClient.search: run search_pages, let its exception
propagate, fetch the resulting references as one batch, let a fetch
exception propagate, drop the none slots, and then strip the text of
each surviving page in order.  Every surviving page object is the
cache-resident dict for its id, so the strip assignment mutates the
cache entry; the returned list reads those entries back after the
loop. -/
def search (env : Env) (limit : Nat) (st : ClientState) (query : String) :
    Except SearchError (List SerializedPage) × ClientState :=
  match search_pages env query with
  | Except.error msg => (Except.error (SearchError.upstream msg), st)
  | Except.ok refs =>
    match fetch_pages env limit st refs with
    | (Except.error FetchError.network, st1) => (Except.error SearchError.network, st1)
    | (Except.error FetchError.keyError, st1) => (Except.error SearchError.keyError, st1)
    | (Except.ok slots, st1) =>
      let eligible := refs.filter (fun r => r.hasType)
      let hitIds := (eligible.zip slots).filterMap (fun p => p.2.map (fun _ => p.1.id))
      let c2 := hitIds.foldl (fun c pid => stripText env c pid) st1.cache
      (Except.ok (hitIds.filterMap (fun pid => odLookup c2 pid)),
        { st1 with cache := c2 })

/-- routes.get_client as used by the route handler: a ConfluenceClient
is constructed from the settings, with a fresh empty cache. -/
def get_client : ClientState := clientInit

/-- The search route of src/api/routes.py: every request constructs a
new client through get_client and runs one search on it; the client,
and with it the cache, is dropped when the request ends. -/
def routes_search (env : Env) (limit : Nat) (query : String) :
    Except SearchError (List SerializedPage) × ClientState :=
  search env limit get_client query

/-- Modelled from the words of claim C8: the sanitization the claim
describes, replacing every maximal run of characters that are neither
alphanumeric nor whitespace by a single space and changing nothing
else.  Stated only to be compared with formatQuery. -/
def claimSanitize (q : String) : String :=
  String.mk (collapseRuns (fun c => c.isAlphanum || c.isWhitespace) q.data)

/-- The amended description of the query formatting, written as an
independent recursion to be compared with formatQuery: a word
character is kept; a non-word character followed by another non-word
character is dropped, and the last non-word character of a run emits
the single space. -/
def amendedSanitize : List Char → List Char
  | [] => []
  | [c] => if isWordChar c then [c] else [' ']
  | c :: d :: cs =>
    if isWordChar c then c :: amendedSanitize (d :: cs)
    else if isWordChar d then ' ' :: amendedSanitize (d :: cs)
    else amendedSanitize (d :: cs)

/-- A concrete collaborator environment for witnesses and
counterexamples around caching: the search collaborator succeeds with
one eligible reference, the document endpoint serves that one page
with raw markup in its body, and the strip collaborator rewrites any
text to a fixed plain-text form. -/
def envCacheDemo : Env :=
  { baseUrl := "u", user := "us", apiToken := "t", searchLimit := 8,
    searchFn := fun _ _ => { statusCode := 200, text := "", results := [{ id := "1", hasType := true }] },
    docs := fun pid => if pid == "1" then UpstreamDoc.okDoc "T" "<b>hi</b>" "/w" else UpstreamDoc.netFail,
    size := fun _ => 1, strip := fun _ => "HI" }

/-- A concrete environment in which the search collaborator returns two
eligible references, the first document fetch raises a network-level
failure and the second would settle with a record. -/
def envNetDemo : Env :=
  { baseUrl := "u", user := "us", apiToken := "t", searchLimit := 8,
    searchFn := fun _ _ => { statusCode := 200, text := "", results := [{ id := "n", hasType := true }, { id := "g", hasType := true }] },
    docs := fun pid => if pid == "g" then UpstreamDoc.okDoc "G" "B" "/g" else UpstreamDoc.netFail,
    size := fun _ => 1, strip := fun s => s }

/-- A concrete environment in which the search collaborator succeeds
and the single document fetch raises a network-level failure. -/
def envNetOnly : Env :=
  { baseUrl := "u", user := "us", apiToken := "t", searchLimit := 8,
    searchFn := fun _ _ => { statusCode := 200, text := "", results := [{ id := "n", hasType := true }] },
    docs := fun _ => UpstreamDoc.netFail,
    size := fun _ => 1, strip := fun s => s }

/-- A concrete environment in which every document fetch settles with a
non-ok HTTP response, the soft-miss outcome. -/
def envSoftMiss : Env :=
  { baseUrl := "u", user := "us", apiToken := "t", searchLimit := 8,
    searchFn := fun _ _ => { statusCode := 200, text := "", results := [] },
    docs := fun _ => UpstreamDoc.httpFail "nf",
    size := fun _ => 1, strip := fun s => s }

/-- A concrete environment whose size estimate makes two records exceed
the small ceiling used with it, so an insertion into a one-entry cache
triggers eviction. -/
def envEvictDemo : Env :=
  { baseUrl := "u", user := "us", apiToken := "t", searchLimit := 8,
    searchFn := fun _ _ => { statusCode := 200, text := "", results := [] },
    docs := fun _ => UpstreamDoc.okDoc "T" "B" "/b",
    size := fun _ => 11, strip := fun s => s }

/-- A concrete record used as pre-existing cache content. -/
def recDemo : SerializedPage := { title := "A", text := "X", url := "ua" }

/-! Basic facts about the fuelled loops, recovering their natural
unfolding equations. -/

theorem length_dropWhile_le (p : Char → Bool) (l : List Char) :
    (l.dropWhile p).length ≤ l.length := by
  induction l with
  | nil => simp [List.dropWhile]
  | cons a t ih =>
    simp only [List.dropWhile]
    split
    · exact Nat.le_succ_of_le ih
    · exact Nat.le_refl _

theorem evictFuel_congr (env : Env) (limit : Nat) :
    ∀ (n m : Nat) (c : Cache), c.length ≤ n → c.length ≤ m →
      evictFuel env limit n c = evictFuel env limit m c := by
  intro n
  induction n with
  | zero =>
    intro m c hn _
    have hc : c = [] := List.eq_nil_of_length_eq_zero (Nat.le_zero.mp hn)
    subst hc
    cases m with
    | zero => rfl
    | succ m => simp [evictFuel, cacheSize]
  | succ n ih =>
    intro m c hn hm
    cases m with
    | zero =>
      have hc : c = [] := List.eq_nil_of_length_eq_zero (Nat.le_zero.mp hm)
      subst hc
      simp [evictFuel, cacheSize]
    | succ m =>
      simp only [evictFuel]
      split
      · exact ih m c.dropLast
          (by rw [List.length_dropLast]; omega)
          (by rw [List.length_dropLast]; omega)
      · rfl

theorem evictLoop_eq (env : Env) (limit : Nat) (c : Cache) :
    evictLoop env limit c =
      if limit < cacheSize env c then evictLoop env limit c.dropLast else c := by
  cases c with
  | nil => simp [evictLoop, evictFuel, cacheSize]
  | cons e t =>
    show evictFuel env limit (t.length + 1) (e :: t) = _
    simp only [evictFuel]
    split
    · exact evictFuel_congr env limit t.length (e :: t).dropLast.length (e :: t).dropLast
        (by rw [List.length_dropLast]; simp) (Nat.le_refl _)
    · rfl

theorem evictLoop_size_le (env : Env) (limit : Nat) :
    ∀ (n : Nat) (c : Cache), c.length ≤ n →
      cacheSize env (evictLoop env limit c) ≤ limit := by
  intro n
  induction n with
  | zero =>
    intro c hn
    have hc : c = [] := List.eq_nil_of_length_eq_zero (Nat.le_zero.mp hn)
    subst hc
    rw [evictLoop_eq]
    simp [cacheSize]
  | succ n ih =>
    intro c hn
    rw [evictLoop_eq]
    split
    · exact ih c.dropLast (by rw [List.length_dropLast]; omega)
    · omega

theorem evictLoop_take (env : Env) (limit : Nat) :
    ∀ (n : Nat) (c : Cache), c.length ≤ n →
      ∃ m, evictLoop env limit c = c.take m := by
  intro n
  induction n with
  | zero =>
    intro c hn
    have hc : c = [] := List.eq_nil_of_length_eq_zero (Nat.le_zero.mp hn)
    subst hc
    exact ⟨0, by rw [evictLoop_eq]; simp [cacheSize]⟩
  | succ n ih =>
    intro c hn
    rw [evictLoop_eq]
    split
    · obtain ⟨m, hm⟩ := ih c.dropLast (by rw [List.length_dropLast]; omega)
      refine ⟨min m (c.length - 1), ?_⟩
      rw [hm, List.dropLast_eq_take, List.take_take]
    · exact ⟨c.length, (List.take_length c).symm⟩

theorem evictLoop_noop (env : Env) (limit : Nat) (c : Cache)
    (h : cacheSize env c ≤ limit) : evictLoop env limit c = c := by
  rw [evictLoop_eq]
  simp [Nat.not_lt.mpr h]

/-- C4: for every cache ceiling, every prior cache content, and every
inserted entry, the total approximate size after cache_put is within
the ceiling; cache_put runs the eviction loop synchronously, removing
entries one at a time until the bound holds.  Quantifying over every
prior cache covers every state reachable by a sequence of puts, so the
bound holds after each put of any sequence. -/
theorem cache_put_size_bound (env : Env) (limit : Nat) (c : Cache)
    (k : String) (v : SerializedPage) :
    cacheSize env (cache_put env limit c k v) ≤ limit :=
  evictLoop_size_le env limit (odSet c k v).length (odSet c k v) (Nat.le_refl _)

/-! Facts about lookup and recency order in the association-list
rendering of the OrderedDict. -/

theorem find?_decomp {p : (String × SerializedPage) → Bool} :
    ∀ {c : Cache} {e : String × SerializedPage}, c.find? p = some e →
      ∃ c1 c2, c = c1 ++ e :: c2 ∧ (∀ b ∈ c1, p b = false) ∧
        c.eraseP p = c1 ++ c2 := by
  intro c
  induction c with
  | nil => intro e h; simp at h
  | cons a t ih =>
    intro e h
    by_cases ha : p a
    · rw [List.find?_cons_of_pos t ha] at h
      cases h
      exact ⟨[], t, rfl, by simp, by simp [List.eraseP_cons, ha]⟩
    · rw [List.find?_cons_of_neg t ha] at h
      obtain ⟨c1, c2, hdec, hfail, herase⟩ := ih h
      refine ⟨a :: c1, c2, by simp [hdec], ?_, ?_⟩
      · intro b hb
        rcases List.mem_cons.mp hb with hb | hb
        · subst hb; exact Bool.of_not_eq_true ha
        · exact hfail b hb
      · simp [List.eraseP_cons, ha, herase]

theorem find?_snoc_fresh {p : (String × SerializedPage) → Bool}
    {c : Cache} {x : String × SerializedPage}
    (hfresh : ∀ b ∈ c, p b = false) (hx : p x = true) :
    (c ++ [x]).find? p = some x := by
  induction c with
  | nil => simp [hx]
  | cons a t ih =>
    have ha : p a = false := hfresh a (List.mem_cons_self a t)
    rw [List.cons_append, List.find?_cons_of_neg _ (by simp [ha])]
    exact ih (fun b hb => hfresh b (List.mem_cons_of_mem a hb))

theorem eraseP_snoc_fresh {p : (String × SerializedPage) → Bool}
    {c : Cache} {x : String × SerializedPage}
    (hfresh : ∀ b ∈ c, p b = false) (hx : p x = true) :
    (c ++ [x]).eraseP p = c := by
  rw [List.eraseP_append_right _ (fun b hb => by simp [hfresh b hb]),
    List.eraseP_cons_of_pos hx]
  simp

/-- C6: the recency discipline of the cache.  A get on a present key
returns the stored record and moves its entry to the most-recently-used
end of the order, keeping the same entries; and when a put overflows
the ceiling, eviction removes entries from the most-recently-inserted
end, so the surviving cache is always a prefix of the order obtained by
the insertion — the least-recently-used head end is never the victim. -/
theorem cache_recency_discipline (env : Env) (limit : Nat) (c : Cache)
    (k : String) (v w : SerializedPage) (c2 : Cache)
    (hget : cache_get c k = some (w, c2)) :
    c2.getLast? = some (k, w) ∧ c2.Perm c ∧ odLookup c k = some w ∧
    ∃ n, cache_put env limit c k v = (odSet c k v).take n := by
  rcases hfind : c.find? (fun e => e.1 == k) with _ | e
  · simp [cache_get, hfind] at hget
  · have hk : e.1 = k := by
      have := List.find?_some hfind
      exact eq_of_beq this
    simp only [cache_get, hfind] at hget
    cases hget
    obtain ⟨c1, c21, hdec, _, herase⟩ := find?_decomp hfind
    have he : e = (k, e.2) := by rw [← hk]
    refine ⟨?_, ?_, ?_, ?_⟩
    · rw [List.getLast?_concat, ← he]
    · rw [herase, hdec]
      exact (List.perm_append_singleton e (c1 ++ c21)).trans List.perm_middle.symm
    · simp [odLookup, hfind]
    · exact evictLoop_take env limit (odSet c k v).length (odSet c k v) (Nat.le_refl _)

/-- Witness for cache_recency_discipline at a concrete two-entry cache:
the get on the older key returns its record, moves it to the most
recent end, and the put bound holds. -/
theorem cache_recency_discipline_witness :
    ([(("b" : String), ({ title := "B", text := "y", url := "ub" } : SerializedPage)),
      ("a", { title := "A", text := "x", url := "ua" })] : Cache).getLast?
        = some ("a", { title := "A", text := "x", url := "ua" }) ∧
    ([(("b" : String), ({ title := "B", text := "y", url := "ub" } : SerializedPage)),
      ("a", { title := "A", text := "x", url := "ua" })] : Cache).Perm
      [("a", { title := "A", text := "x", url := "ua" }),
       ("b", { title := "B", text := "y", url := "ub" })] ∧
    odLookup
      [("a", { title := "A", text := "x", url := "ua" }),
       ("b", { title := "B", text := "y", url := "ub" })] "a"
      = some { title := "A", text := "x", url := "ua" } ∧
    ∃ n,
      cache_put
        { baseUrl := "u", user := "us", apiToken := "t", searchLimit := 8,
          searchFn := fun _ _ => { statusCode := 200, text := "", results := [] },
          docs := fun _ => UpstreamDoc.netFail,
          size := fun _ => 1, strip := fun s => s } 10
        [("a", { title := "A", text := "x", url := "ua" }),
         ("b", { title := "B", text := "y", url := "ub" })] "a"
        { title := "A2", text := "z", url := "ua" }
      = (odSet
          [("a", { title := "A", text := "x", url := "ua" }),
           ("b", { title := "B", text := "y", url := "ub" })] "a"
          { title := "A2", text := "z", url := "ua" }).take n :=
  cache_recency_discipline
    { baseUrl := "u", user := "us", apiToken := "t", searchLimit := 8,
      searchFn := fun _ _ => { statusCode := 200, text := "", results := [] },
      docs := fun _ => UpstreamDoc.netFail,
      size := fun _ => 1, strip := fun s => s } 10
    [("a", { title := "A", text := "x", url := "ua" }),
     ("b", { title := "B", text := "y", url := "ub" })]
    "a" { title := "A2", text := "z", url := "ua" }
    { title := "A", text := "x", url := "ua" }
    [("b", { title := "B", text := "y", url := "ub" }),
     ("a", { title := "A", text := "x", url := "ua" })]
    (by decide)

/-! Facts about the query formatting. -/

theorem collapseFuel_congr (p : Char → Bool) :
    ∀ (n m : Nat) (l : List Char), l.length ≤ n → l.length ≤ m →
      collapseFuel p n l = collapseFuel p m l := by
  intro n
  induction n with
  | zero =>
    intro m l hn _
    have hl : l = [] := List.eq_nil_of_length_eq_zero (Nat.le_zero.mp hn)
    subst hl
    cases m with
    | zero => rfl
    | succ m => rfl
  | succ n ih =>
    intro m l hn hm
    cases m with
    | zero =>
      have hl : l = [] := List.eq_nil_of_length_eq_zero (Nat.le_zero.mp hm)
      subst hl
      rfl
    | succ m =>
      cases l with
      | nil => rfl
      | cons c cs =>
        simp only [collapseFuel]
        split
        · rw [ih m cs (by simpa using hn) (by simpa using hm)]
        · rw [ih m (cs.dropWhile (fun d => !p d))
            (Nat.le_trans (length_dropWhile_le _ cs) (by simpa using hn))
            (Nat.le_trans (length_dropWhile_le _ cs) (by simpa using hm))]

theorem collapseRuns_cons (p : Char → Bool) (c : Char) (cs : List Char) :
    collapseRuns p (c :: cs) =
      if p c then c :: collapseRuns p cs
      else ' ' :: collapseRuns p (cs.dropWhile (fun d => !p d)) := by
  show collapseFuel p (cs.length + 1) (c :: cs) = _
  simp only [collapseFuel]
  split
  · rfl
  · rw [collapseRuns,
      collapseFuel_congr p cs.length (cs.dropWhile (fun d => !p d)).length
        (cs.dropWhile (fun d => !p d)) (length_dropWhile_le _ cs) (Nat.le_refl _)]

theorem collapseRuns_eq_amended :
    ∀ (n : Nat) (l : List Char), l.length ≤ n →
      collapseRuns isWordChar l = amendedSanitize l := by
  intro n
  induction n with
  | zero =>
    intro l hn
    have hl : l = [] := List.eq_nil_of_length_eq_zero (Nat.le_zero.mp hn)
    subst hl
    rfl
  | succ n ih =>
    intro l hn
    match l with
    | [] => rfl
    | [c] =>
      rw [collapseRuns_cons]
      by_cases h : isWordChar c
      · simp [h, amendedSanitize, collapseRuns, collapseFuel]
      · simp [h, amendedSanitize, collapseRuns, collapseFuel, List.dropWhile]
    | c :: d :: cs =>
      by_cases hc : isWordChar c
      · rw [collapseRuns_cons]
        simp only [hc, if_true, amendedSanitize]
        rw [ih (d :: cs) (by simpa using hn)]
      · by_cases hd : isWordChar d
        · rw [collapseRuns_cons]
          simp only [hc, hd, if_false, if_true, amendedSanitize, Bool.false_eq_true]
          rw [List.dropWhile_cons_of_neg (by simp [hd]), ih (d :: cs) (by simpa using hn)]
        · rw [collapseRuns_cons]
          simp only [hc, hd, if_false, amendedSanitize, Bool.false_eq_true]
          rw [List.dropWhile_cons_of_pos (by simp [hd])]
          rw [← List.dropWhile_cons_of_pos (p := fun x => !isWordChar x) (a := d) (by simp [hd]),
            ← ih (d :: cs) (by simpa using hn)]
          rw [collapseRuns_cons]
          simp [hd]

/-- C8 amended: the query submitted upstream by search_pages is the
input with every maximal run of non-word characters — characters that
are neither alphanumeric nor underscore, whitespace included — replaced
by a single space, underscores and word characters kept unchanged; on
the example of the claim this still yields the stated result.  The
amended transform is stated through the independently written recursion
amendedSanitize. -/
theorem formatQuery_collapses_nonword_runs (q : String) :
    formatQuery q = String.mk (amendedSanitize q.data) ∧
    formatQuery "a/b?  c" = "a b c" := by
  constructor
  · unfold formatQuery
    rw [collapseRuns_eq_amended q.data.length q.data (Nat.le_refl _)]
  · decide

/-- Counterexample to C8 as stated.  The collaborator is instantiated
to echo the submitted query back as a result id, so the first conjunct
exhibits the query actually submitted for the input consisting of the
letter a, two spaces and the letter b: the code submits it with the
whitespace run collapsed, while the transform worded in the claim,
claimSanitize, leaves that input unchanged — runs of whitespace are
changed even though they contain no character that is non-alphanumeric
and non-whitespace.  The last conjuncts show the claim is also
internally inconsistent: its own transform applied to its own example
does not give the stated result. -/
theorem query_sanitize_cex :
    search_pages
      { baseUrl := "u", user := "us", apiToken := "t", searchLimit := 8,
        searchFn := fun q _ => { statusCode := 200, text := "", results := [{ id := q, hasType := false }] },
        docs := fun _ => UpstreamDoc.netFail, size := fun _ => 1, strip := fun s => s }
      "a  b"
      = Except.ok [{ id := "a b", hasType := false }] ∧
    claimSanitize "a  b" = "a  b" ∧
    ("a b" : String) ≠ "a  b" ∧
    claimSanitize "a/b?  c" = "a b   c" ∧
    ("a b   c" : String) ≠ "a b c" := by
  refine ⟨?_, ?_, ?_, ?_, ?_⟩ <;> decide

/-! Facts about gather. -/

theorem gather_append (env : Env) (limit : Nat) :
    ∀ (xs ys : List PageRef) (st : ClientState),
      gather env limit st (xs ++ ys) =
        match gather env limit st xs with
        | (Except.error e, st1) => (Except.error e, st1)
        | (Except.ok rs, st1) =>
          match gather env limit st1 ys with
          | (Except.error e, st2) => (Except.error e, st2)
          | (Except.ok rs2, st2) => (Except.ok (rs ++ rs2), st2) := by
  intro xs
  induction xs with
  | nil =>
    intro ys st
    simp only [List.nil_append, gather]
    rcases hg : gather env limit st ys with ⟨res, st2⟩
    cases res with
    | error e => rfl
    | ok slots => simp
  | cons r rs ih =>
    intro ys st
    by_cases hr : r.hasType
    · simp only [List.cons_append, gather, hr, if_true]
      rcases hgp : get_page env limit st r.id with ⟨res, st1⟩
      cases res with
      | error e => rfl
      | ok slot =>
        dsimp only
        rw [List.append_eq, ih ys st1]
        rcases hg1 : gather env limit st1 rs with ⟨res1, st2⟩
        cases res1 with
        | error e => rfl
        | ok slots =>
          dsimp only
          rcases hg2 : gather env limit st2 ys with ⟨res2, st3⟩
          cases res2 with
          | error e => rfl
          | ok slots2 => simp
    · simp only [List.cons_append, gather, hr]
      exact ih ys st

/-- C1 amended: a network-level failure is not absorbed as a soft miss.
If every fetch of a first segment of the batch settles, and the next
eligible reference is uncached and its upstream fetch raises a
network-level failure, then the whole gather raises that failure: the
batch produces no result list at all, the settled sibling results are
discarded, and the later siblings are not fetched; through search the
failure surfaces past the pipeline as a non-upstream error rather than
being treated as a SoftFetchMiss. -/
theorem network_failure_propagates (env : Env) (limit : Nat)
    (st st1 : ClientState) (refs1 refs2 : List PageRef) (r : PageRef)
    (slots : List (Option SerializedPage))
    (hr : r.hasType = true)
    (hok : gather env limit st refs1 = (Except.ok slots, st1))
    (hmiss : st1.cache.any (fun e => e.1 == r.id) = false)
    (hnet : env.docs r.id = UpstreamDoc.netFail) :
    gather env limit st (refs1 ++ r :: refs2)
      = (Except.error FetchError.network, { st1 with calls := st1.calls + 1 }) ∧
    ∀ q, search_pages env q = Except.ok (refs1 ++ r :: refs2) →
      search env limit st q
        = (Except.error SearchError.network, { st1 with calls := st1.calls + 1 }) := by
  have hgp : get_page env limit st1 r.id
      = (Except.error FetchError.network, { st1 with calls := st1.calls + 1 }) := by
    rw [get_page]
    simp [hmiss, hnet]
  have hg : gather env limit st (refs1 ++ r :: refs2)
      = (Except.error FetchError.network, { st1 with calls := st1.calls + 1 }) := by
    rw [gather_append env limit refs1 (r :: refs2) st, hok]
    dsimp only
    rw [gather]
    simp only [hr, if_true]
    rw [hgp]
  refine ⟨hg, ?_⟩
  intro q hq
  rw [search, hq]
  dsimp only
  rw [fetch_pages, hg]

/-- Witness for network_failure_propagates: in the concrete two-fetch
environment the batch raises, and the failure surfaces through search
as a non-upstream error. -/
theorem network_failure_propagates_witness :
    gather envNetDemo 100 clientInit
        [{ id := "n", hasType := true }, { id := "g", hasType := true }]
      = (Except.error FetchError.network, { cache := [], calls := 1 }) ∧
    search envNetDemo 100 clientInit "q"
      = (Except.error SearchError.network, { cache := [], calls := 1 }) := by
  have h := network_failure_propagates envNetDemo 100 clientInit clientInit
    [] [{ id := "g", hasType := true }] { id := "n", hasType := true } []
    (by decide) rfl (by decide) (by decide)
  exact ⟨h.1, h.2 "q" (by decide)⟩

/-- Counterexample to C1 as stated.  In the concrete environment the
first fetch of the batch raises a network-level failure while its
sibling alone would settle with a record: the batch returns no result
list at all — the sibling neither settles inside the batch nor
contributes its record — instead of recording a SoftFetchMiss for the
failing document only. -/
theorem network_failure_aborts_batch_cex :
    fetch_pages envNetDemo 100 clientInit
        [{ id := "n", hasType := true }, { id := "g", hasType := true }]
      = (Except.error FetchError.network, { cache := [], calls := 1 }) ∧
    fetch_pages envNetDemo 100 clientInit [{ id := "g", hasType := true }]
      = (Except.ok [some { title := "G", text := "B", url := "u/wiki/g" }],
         { cache := [("g", { title := "G", text := "B", url := "u/wiki/g" })],
           calls := 1 }) := by
  refine ⟨?_, ?_⟩ <;> decide

theorem gather_eq_filter (env : Env) (limit : Nat) :
    ∀ (refs : List PageRef) (st : ClientState),
      gather env limit st refs
        = gather env limit st (refs.filter (fun r => r.hasType)) := by
  intro refs
  induction refs with
  | nil => intro st; rfl
  | cons r rs ih =>
    intro st
    by_cases hr : r.hasType
    · rw [List.filter_cons_of_pos hr]
      simp only [gather, hr, if_true]
      rcases hgp : get_page env limit st r.id with ⟨res, st1⟩
      cases res with
      | error e => rfl
      | ok slot =>
        dsimp only
        rw [ih st1]
    · rw [List.filter_cons_of_neg (by simpa using hr)]
      simp only [gather, hr]
      exact ih st

theorem gather_ok_spec (env : Env) (limit : Nat) :
    ∀ (ps : List PageRef) (st st2 : ClientState)
      (slots : List (Option SerializedPage)),
      (∀ r ∈ ps, r.hasType = true) →
      gather env limit st ps = (Except.ok slots, st2) →
      slots.length = ps.length ∧
      ∀ i, i < ps.length →
        ∃ sti sti2,
          gather env limit st (ps.take i) = (Except.ok (slots.take i), sti) ∧
          get_page env limit sti ((ps.getD i { id := "", hasType := true }).id)
            = (Except.ok (slots.getD i none), sti2) := by
  intro ps
  induction ps with
  | nil =>
    intro st st2 slots _ hg
    simp only [gather, Prod.mk.injEq] at hg
    obtain ⟨h1, _⟩ := hg
    cases h1
    exact ⟨rfl, fun i hi => absurd hi (by simp)⟩
  | cons r rs ih =>
    intro st st2 slots hall hg
    have hr : r.hasType = true := hall r (List.mem_cons_self r rs)
    simp only [gather, hr, if_true] at hg
    rcases hgp : get_page env limit st r.id with ⟨res, st1⟩
    rw [hgp] at hg
    cases res with
    | error e => simp at hg
    | ok slot =>
      dsimp only at hg
      rcases hg1 : gather env limit st1 rs with ⟨res1, st2x⟩
      rw [hg1] at hg
      cases res1 with
      | error e => simp at hg
      | ok slots1 =>
        simp only [Prod.mk.injEq] at hg
        obtain ⟨hslots, hst⟩ := hg
        subst hst
        injection hslots with hslots2
        subst hslots2
        obtain ⟨hlen, hidx⟩ :=
          ih st1 st2x slots1 (fun x hx => hall x (List.mem_cons_of_mem r hx)) hg1
        constructor
        · simp [hlen]
        · intro i hi
          cases i with
          | zero =>
            refine ⟨st, st1, ?_, ?_⟩
            · simp [gather]
            · simpa using hgp
          | succ i =>
            obtain ⟨sti, sti2, hgi, hgpi⟩ := hidx i
              (by simp only [List.length_cons] at hi; omega)
            refine ⟨sti, sti2, ?_, ?_⟩
            · simp only [List.take_succ_cons, gather, hr, if_true]
              rw [hgp]
              dsimp only
              rw [hgi]
            · simpa using hgpi

/-- C3: when the batch settles, the output list of gather has exactly
one slot per eligible, kind-bearing input reference, and the slot at
index i is the fetch result — record or none — that get_page produces
for eligible input reference i from the state reached after the
preceding fetches, so output order equals input order. -/
theorem gather_order_preserved (env : Env) (limit : Nat) (refs : List PageRef)
    (st st2 : ClientState) (slots : List (Option SerializedPage))
    (hg : gather env limit st refs = (Except.ok slots, st2)) :
    slots.length = (refs.filter (fun r => r.hasType)).length ∧
    ∀ i, i < slots.length →
      ∃ sti sti2,
        gather env limit st ((refs.filter (fun r => r.hasType)).take i)
          = (Except.ok (slots.take i), sti) ∧
        get_page env limit sti
            (((refs.filter (fun r => r.hasType)).getD i { id := "", hasType := true }).id)
          = (Except.ok (slots.getD i none), sti2) := by
  rw [gather_eq_filter env limit refs st] at hg
  have hall : ∀ r ∈ refs.filter (fun r => r.hasType), r.hasType = true := by
    intro r hrr
    exact (List.mem_filter.mp hrr).2
  obtain ⟨hlen, hidx⟩ := gather_ok_spec env limit
    (refs.filter (fun r => r.hasType)) st st2 slots hall hg
  exact ⟨hlen, fun i hi => hidx i (by rw [← hlen]; exact hi)⟩

/-- Witness for gather_order_preserved on a concrete batch with one
eligible and one ineligible reference: one slot, and the slot at index
zero aligned with the eligible reference. -/
theorem gather_order_preserved_witness :
    ([some { title := "T", text := "<b>hi</b>", url := "u/wiki/w" }] :
        List (Option SerializedPage)).length
      = (([{ id := "1", hasType := true }, { id := "x", hasType := false }] :
          List PageRef).filter (fun r => r.hasType)).length ∧
    ∃ sti sti2,
      gather envCacheDemo 100 clientInit
          ((([{ id := "1", hasType := true }, { id := "x", hasType := false }] :
            List PageRef).filter (fun r => r.hasType)).take 0)
        = (Except.ok (([some { title := "T", text := "<b>hi</b>", url := "u/wiki/w" }] :
            List (Option SerializedPage)).take 0), sti) ∧
      get_page envCacheDemo 100 sti
          (((([{ id := "1", hasType := true }, { id := "x", hasType := false }] :
            List PageRef).filter (fun r => r.hasType)).getD 0
              { id := "", hasType := true }).id)
        = (Except.ok (([some { title := "T", text := "<b>hi</b>", url := "u/wiki/w" }] :
            List (Option SerializedPage)).getD 0 none), sti2) := by
  have h := gather_order_preserved envCacheDemo 100
    [{ id := "1", hasType := true }, { id := "x", hasType := false }]
    clientInit
    { cache := [("1", { title := "T", text := "<b>hi</b>", url := "u/wiki/w" })], calls := 1 }
    [some { title := "T", text := "<b>hi</b>", url := "u/wiki/w" }]
    (by decide)
  exact ⟨h.1, h.2 0 (by decide)⟩

/-- C7 amended: for every document identifier that is not yet cached,
whose upstream fetch succeeds, and whose insertion fits the ceiling
without eviction, fetching it twice in immediate succession issues
exactly one upstream network call: the first fetch stores the record
and the second is a cache hit returning the same record without
touching the network.  When the first fetch soft-misses, nothing is
cached and the second fetch contacts upstream again — see the
counterexample. -/
theorem successful_fetch_idempotent (env : Env) (limit : Nat)
    (st : ClientState) (pid t b w : String)
    (hmiss : st.cache.any (fun e => e.1 == pid) = false)
    (hdoc : env.docs pid = UpstreamDoc.okDoc t b w)
    (hfit : cacheSize env
        (st.cache ++ [(pid, { title := t, text := b, url := env.baseUrl ++ "/wiki" ++ w })])
      ≤ limit) :
    ∃ pg st1 st2,
      get_page env limit st pid = (Except.ok (some pg), st1) ∧
      st1.calls = st.calls + 1 ∧
      get_page env limit st1 pid = (Except.ok (some pg), st2) ∧
      st2.calls = st1.calls := by
  set page : SerializedPage :=
    { title := t, text := b, url := env.baseUrl ++ "/wiki" ++ w } with hpage
  have hfresh : ∀ e ∈ st.cache, (e.1 == pid) = false := by
    intro e he
    exact Bool.of_not_eq_true (List.any_eq_false.mp hmiss e he)
  have hset : odSet st.cache pid page = st.cache ++ [(pid, page)] := by
    rw [odSet, hmiss]
    simp
  have hget : cache_get (st.cache ++ [(pid, page)]) pid
      = some (page, st.cache ++ [(pid, page)]) := by
    simp only [cache_get]
    rw [find?_snoc_fresh hfresh (by simp)]
    dsimp only
    rw [eraseP_snoc_fresh hfresh (by simp)]
  have h1 : get_page env limit st pid
      = (Except.ok (some page),
         { cache := st.cache ++ [(pid, page)], calls := st.calls + 1 }) := by
    rw [get_page, hmiss]
    simp only [Bool.false_eq_true, if_false, hdoc]
    rw [cache_put, hset, evictLoop_noop env limit _ hfit, hget]
  have hany : (st.cache ++ [(pid, page)]).any (fun e => e.1 == pid) = true :=
    List.any_eq_true.mpr ⟨(pid, page), by simp, by simp⟩
  have h2 : get_page env limit
      { cache := st.cache ++ [(pid, page)], calls := st.calls + 1 } pid
      = (Except.ok (some page),
         { cache := st.cache ++ [(pid, page)], calls := st.calls + 1 }) := by
    rw [get_page]
    dsimp only
    rw [hany]
    simp only [if_true]
    rw [hget]
  exact ⟨page, _, _, h1, rfl, h2, rfl⟩

/-- Witness for successful_fetch_idempotent at the concrete cache
environment with an initially empty cache. -/
theorem successful_fetch_idempotent_witness :
    ∃ pg st1 st2,
      get_page envCacheDemo 100 clientInit "1" = (Except.ok (some pg), st1) ∧
      st1.calls = clientInit.calls + 1 ∧
      get_page envCacheDemo 100 st1 "1" = (Except.ok (some pg), st2) ∧
      st2.calls = st1.calls :=
  successful_fetch_idempotent envCacheDemo 100 clientInit "1" "T" "<b>hi</b>" "/w"
    (by decide) (by decide) (by decide)

/-- Counterexample to C7 as stated.  For an identifier whose upstream
response is a non-success status, the fetch settles as a soft miss and
caches nothing, so fetching it twice in immediate succession issues
two upstream network calls, not one, and the second fetch is not a
cache hit. -/
theorem soft_miss_refetch_cex :
    get_page envSoftMiss 100 clientInit "h"
      = (Except.ok none, { cache := [], calls := 1 }) ∧
    get_page envSoftMiss 100 { cache := [], calls := 1 } "h"
      = (Except.ok none, { cache := [], calls := 2 }) := by
  refine ⟨?_, ?_⟩ <;> decide

/-- C2 amended: the cache is per client instance.  Within one client, a
document identifier present in the cache is served from the cache: the
fetch returns the stored record and issues no upstream request (the
call counter is unchanged).  But the caller-facing route constructs a
new client with an empty cache for every request, so nothing carries
over between successive search calls — see the counterexample. -/
theorem cache_hit_no_upstream_fetch (env : Env) (limit : Nat)
    (st : ClientState) (pid : String) (v : SerializedPage)
    (hv : odLookup st.cache pid = some v) :
    ∃ c2, get_page env limit st pid
        = (Except.ok (some v), { cache := c2, calls := st.calls }) := by
  rcases hfind : st.cache.find? (fun e => e.1 == pid) with _ | e
  · rw [odLookup, hfind] at hv
    exact Option.noConfusion hv
  · rw [odLookup, hfind] at hv
    injection hv with hv2
    have hpe : (e.1 == pid) = true := by
      have h := List.find?_some hfind
      simpa using h
    have hany : st.cache.any (fun e => e.1 == pid) = true :=
      List.any_eq_true.mpr ⟨e, List.mem_of_find?_eq_some hfind, hpe⟩
    refine ⟨st.cache.eraseP (fun e => e.1 == pid) ++ [e], ?_⟩
    rw [get_page, hany]
    simp only [if_true, cache_get]
    rw [hfind]
    dsimp only
    have hv3 : e.2 = v := hv2
    rw [hv3]

/-- Witness for cache_hit_no_upstream_fetch at a concrete one-entry
cache: the hit returns the stored record at unchanged call count. -/
theorem cache_hit_no_upstream_fetch_witness :
    ∃ c2, get_page envSoftMiss 100 { cache := [("1", recDemo)], calls := 5 } "1"
        = (Except.ok (some recDemo), { cache := c2, calls := 5 }) :=
  cache_hit_no_upstream_fetch envSoftMiss 100
    { cache := [("1", recDemo)], calls := 5 } "1" recDemo (by decide)

/-- Counterexample to C2 as stated.  The route handler constructs a new
client through get_client on every request, so the process holds no
cache shared across search invocations.  In the concrete environment a
caller-facing search fetches and caches document 1 and ends with one
upstream document call, and nothing evicts the entry; a second,
identical successive invocation is the same expression starting again
from the empty get_client state, so it again issues one upstream
document call instead of the zero calls a cache hit would cost — the
last conjunct shows the same fetch against the carried-over cache
state would have cost no call. -/
theorem fresh_client_per_request_cex :
    routes_search envCacheDemo 100 "q"
      = (Except.ok [{ title := "T", text := "HI", url := "u/wiki/w" }],
         { cache := [("1", { title := "T", text := "HI", url := "u/wiki/w" })],
           calls := 1 }) ∧
    get_client.cache = ([] : Cache) ∧
    get_page envCacheDemo 100
        { cache := [("1", { title := "T", text := "HI", url := "u/wiki/w" })],
          calls := 0 } "1"
      = (Except.ok (some { title := "T", text := "HI", url := "u/wiki/w" }),
         { cache := [("1", { title := "T", text := "HI", url := "u/wiki/w" })],
           calls := 0 }) := by
  refine ⟨?_, ?_, ?_⟩ <;> decide

theorem stripText_lookup_eq (env : Env) :
    ∀ (c : Cache) (pid : String) (v : SerializedPage),
      odLookup c pid = some v →
      odLookup (stripText env c pid) pid
        = some { v with text := env.strip v.text } := by
  intro c
  induction c with
  | nil => intro pid v hv; exact Option.noConfusion hv
  | cons e t ih =>
    intro pid v hv
    rw [odLookup] at hv
    by_cases hpd : (e.1 == pid) = true
    · simp only [List.find?, hpd, Option.map_some'] at hv
      injection hv with hv2
      rw [odLookup, stripText, List.map_cons]
      simp only [hpd, if_true, List.find?, Option.map_some']
      rw [hv2]
    · simp only [List.find?, hpd, Bool.false_eq_true] at hv
      rw [odLookup, stripText, List.map_cons]
      simp only [hpd, Bool.false_eq_true, if_false, List.find?]
      exact ih pid v hv

theorem stripText_lookup_ne (env : Env) :
    ∀ (c : Cache) (pid k : String), (k == pid) = false →
      odLookup (stripText env c pid) k = odLookup c k := by
  intro c
  induction c with
  | nil => intro pid k _; rfl
  | cons e t ih =>
    intro pid k hk
    have htail : odLookup (stripText env t pid) k = odLookup t k := ih pid k hk
    by_cases hek : (e.1 == k) = true
    · have he1 : e.1 = k := eq_of_beq hek
      have hepid : (e.1 == pid) = false := by
        rw [he1]; exact hk
      rw [odLookup, odLookup, stripText, List.map_cons]
      simp only [hepid, Bool.false_eq_true, if_false, List.find?, hek]
    · rw [odLookup, odLookup, stripText, List.map_cons]
      by_cases hepid : (e.1 == pid) = true
      · simp only [hepid, if_true, List.find?, hek, Bool.false_eq_true]
        exact htail
      · simp only [hepid, hek, Bool.false_eq_true, if_false, List.find?]
        exact htail

/-- C5 amended: DocumentRecords are not immutable under search.  The
normalization loop of search assigns the stripped text into the very
dict object stored in the cache, so after the loop the cache entry for
a normalized page id holds the record with its text replaced by the
strip collaborator output — the raw-markup text stored at fetch time is
overwritten — while entries under other identifiers are untouched. -/
theorem stripText_rewrites_cached_record (env : Env) (c : Cache)
    (pid : String) (v : SerializedPage) (hv : odLookup c pid = some v) :
    odLookup (stripText env c pid) pid
      = some { v with text := env.strip v.text } ∧
    ∀ k, k ≠ pid → odLookup (stripText env c pid) k = odLookup c k :=
  ⟨stripText_lookup_eq env c pid v hv,
   fun k hk => stripText_lookup_ne env c pid k (beq_eq_false_iff_ne.mpr hk)⟩

/-- Witness for stripText_rewrites_cached_record on a concrete
two-entry cache: the normalized entry is rewritten and the other entry
is untouched. -/
theorem stripText_rewrites_cached_record_witness :
    odLookup (stripText envCacheDemo
        [("1", { title := "T", text := "<b>hi</b>", url := "u/wiki/w" }),
         ("2", recDemo)] "1") "1"
      = some { title := "T", text := "HI", url := "u/wiki/w" } ∧
    odLookup (stripText envCacheDemo
        [("1", { title := "T", text := "<b>hi</b>", url := "u/wiki/w" }),
         ("2", recDemo)] "1") "2"
      = odLookup
          [("1", { title := "T", text := "<b>hi</b>", url := "u/wiki/w" }),
           ("2", recDemo)] "2" := by
  have h := stripText_rewrites_cached_record envCacheDemo
    [("1", { title := "T", text := "<b>hi</b>", url := "u/wiki/w" }),
     ("2", recDemo)] "1"
    { title := "T", text := "<b>hi</b>", url := "u/wiki/w" } (by decide)
  exact ⟨h.1, h.2 "2" (by decide)⟩

/-- Counterexample to C5 as stated.  The document endpoint serves raw
markup as the body value (last conjunct), so the record created at
fetch time stores that markup; but after the search returns, the cache
holds the normalized text for that identifier, which differs from the
raw markup — the text-normalization step modified the record stored in
the cache. -/
theorem normalization_mutates_cache_cex :
    search envCacheDemo 100 clientInit "q"
      = (Except.ok [{ title := "T", text := "HI", url := "u/wiki/w" }],
         { cache := [("1", { title := "T", text := "HI", url := "u/wiki/w" })],
           calls := 1 }) ∧
    envCacheDemo.docs "1" = UpstreamDoc.okDoc "T" "<b>hi</b>" "/w" ∧
    ("HI" : String) ≠ "<b>hi</b>" := by
  refine ⟨?_, ?_, ?_⟩ <;> decide

/-- C9 amended: the search operation raises an UpstreamFailure-shaped
error carrying the upstream response body text if and only if the
search collaborator response has a status other than 200, and in that
case the client state is returned unchanged — no document fetch is
attempted and the cache is untouched.  It is the only failure raised
as an upstream error, but not the only failure that surfaces past the
pipeline: a network-level fetch failure propagates as well — see the
counterexample. -/
theorem upstream_error_iff (env : Env) (limit : Nat) (st : ClientState)
    (q : String) :
    (env.searchFn (formatQuery q) env.searchLimit).statusCode ≠ 200 ↔
      search env limit st q
        = (Except.error (SearchError.upstream
            (String.append "Error during Confluence search: "
              (env.searchFn (formatQuery q) env.searchLimit).text)), st) := by
  constructor
  · intro h
    have hsp : search_pages env q
        = Except.error (String.append "Error during Confluence search: "
            (env.searchFn (formatQuery q) env.searchLimit).text) := by
      rw [search_pages]
      exact if_pos h
    rw [search, hsp]
  · intro h
    by_contra hne
    have hsp : search_pages env q
        = Except.ok (env.searchFn (formatQuery q) env.searchLimit).results := by
      rw [search_pages]
      exact if_neg (by rw [hne]; exact fun hc => hc rfl)
    rw [search, hsp] at h
    dsimp only at h
    rcases hfp : fetch_pages env limit st
        ((env.searchFn (formatQuery q) env.searchLimit).results) with ⟨res, st1⟩
    rw [hfp] at h
    cases res with
    | error e => cases e <;> simp at h
    | ok slots => simp at h

/-- Counterexample to C9's claim that the upstream failure is the only
failure surfacing past the SearchPipeline: in the concrete environment
the search collaborator answers with status 200, yet search raises — a
network-level fetch failure also surfaces, and it is not an
UpstreamFailure-shaped error. -/
theorem fetch_error_surfaces_cex :
    search envNetOnly 100 clientInit "q"
      = (Except.error SearchError.network, { cache := [], calls := 1 }) ∧
    (envNetOnly.searchFn (formatQuery "q") envNetOnly.searchLimit).statusCode
      = 200 := by
  refine ⟨?_, ?_⟩ <;> decide

/-- C10: evaluation of the fetch at the failing input.  The prior cache
holds one record and is within the ceiling of 20 (second conjunct), and
the upstream response for the requested document is successful (third
conjunct); the insertion of the parsed record pushes the total size to
22, the eviction loop pops from the most-recently-inserted end — which
is the record just inserted — and the subsequent cache_get read-back of
that record raises KeyError, so the fetch raises instead of returning
the parsed record. -/
theorem eviction_keyError_crash :
    get_page envEvictDemo 20 { cache := [("a", recDemo)], calls := 0 } "b"
      = (Except.error FetchError.keyError,
         { cache := [("a", recDemo)], calls := 1 }) ∧
    cacheSize envEvictDemo [("a", recDemo)] ≤ 20 ∧
    envEvictDemo.docs "b" = UpstreamDoc.okDoc "T" "B" "/b" := by
  refine ⟨?_, ?_, ?_⟩ <;> decide
